import Mathlib

/-!
Formal model of the client-side PDF rendering and caching core of the
epstein-files-browser repository.

The embedding covers:
* the bounded LRU cache (`src/lib/cache.ts`, class `LRUCache`, and the
  module-level `pdfPagesCache` / `thumbnailCache` instances with the
  capacities from `src/lib/constants.ts`);
* the render pipeline (`loadPdf` in `src/lib/pdf-utils.ts` and the
  `loadPages` effect of `src/app/file-browser.tsx` with its
  manifest-backed fast path `getPageImageUrl` / `loadPagesFromImages`);
* the prefetch scheduler (`prefetchPdf` in `src/lib/pdf-utils.ts`);
* the navigation controller (`selectedFileIndex` / `hasPrev` / `hasNext`
  in `src/app/file-browser.tsx`).

A JavaScript `Map` is modelled as an association list in insertion order,
oldest entry first, which is exactly the iteration order the LRU code
relies on.  Asynchronous code is modelled either as a sequential function
(when the claim is about a single invocation) or as a small-step machine
over explicit suspension points (for the race claim).
-/

namespace EFB

/-! ### Cache capacities (src/lib/constants.ts) -/

/-- `PDF_CACHE_MAX_ENTRIES = 20` (src/lib/constants.ts line 15). -/
def PDF_CACHE_MAX_ENTRIES : Nat := 20

/-- `THUMBNAIL_CACHE_MAX_ENTRIES = 500` (src/lib/constants.ts line 16). -/
def THUMBNAIL_CACHE_MAX_ENTRIES : Nat := 500

/-! ### JavaScript `Map` primitives

`this.cache : Map<K, V>` iterates in insertion order; `get`/`has` find
the unique entry with the given key, `delete` removes it, `set` appends
at the end (for a key not currently present). -/

variable {K V : Type} [DecidableEq K]

/-- `Map.get`: the value stored for `k`, if any. -/
def mapGet : List (K × V) → K → Option V
  | [], _ => none
  | (a, b) :: xs, k => if a = k then some b else mapGet xs k

/-- `Map.has`. -/
def mapHas (c : List (K × V)) (k : K) : Bool :=
  (mapGet c k).isSome

/-- `Map.delete`: removes the entry with key `k` (keys are unique in a
`Map`, so removing the first occurrence is removing the entry). -/
def mapDelete : List (K × V) → K → List (K × V)
  | [], _ => []
  | (a, b) :: xs, k => if a = k then xs else (a, b) :: mapDelete xs k

/-! ### The LRU cache (src/lib/cache.ts, class LRUCache) -/

/-- The eviction loop of `LRUCache.set`:
`while (this.cache.size >= this.maxSize) delete firstKey`, under the
assumption that the loop terminates (each iteration removes the oldest
entry, the head of the insertion-ordered list).  `evictFuel` below models
the loop without that assumption.  Only the length of the list matters,
so the definition is generic in the entry type. -/
def evict {A : Type} (maxSize : Nat) : List A → List A
  | [] => []
  | x :: xs => if maxSize ≤ xs.length + 1 then evict maxSize xs else x :: xs

/-- Fuel-indexed version of the eviction loop, faithful to the source
including the `if (firstKey !== undefined)` guard: on an empty cache the
loop body deletes nothing, so with `maxSize = 0` the loop never exits.
`none` means the fuel ran out before the loop terminated. -/
def evictFuel {A : Type} (maxSize : Nat) : Nat → List A → Option (List A)
  | 0, _ => none
  | fuel + 1, c =>
    if maxSize ≤ c.length then
      match c with
      | [] => evictFuel maxSize fuel []
      | _ :: xs => evictFuel maxSize fuel xs
    else some c

/-- `LRUCache.get` (src/lib/cache.ts lines 63-71): a hit deletes the entry
and re-inserts it at the most-recently-used end; a miss has no effect.
Returns the looked-up value together with the updated cache. -/
def lruGet (c : List (K × V)) (k : K) : Option V × List (K × V) :=
  match mapGet c k with
  | none => (none, c)
  | some v => (some v, mapDelete c k ++ [(k, v)])

/-- `LRUCache.set` (src/lib/cache.ts lines 73-88): delete the key if
present, evict oldest entries while at capacity, then insert at the
most-recently-used end. -/
def lruSet (maxSize : Nat) (c : List (K × V)) (k : K) (v : V) : List (K × V) :=
  evict maxSize (if mapHas c k then mapDelete c k else c) ++ [(k, v)]

/-- `LRUCache.set` with the eviction loop run on fuel instead of assumed
terminating. -/
def lruSetFuel (maxSize fuel : Nat) (c : List (K × V)) (k : K) (v : V) :
    Option (List (K × V)) :=
  (evictFuel maxSize fuel (if mapHas c k then mapDelete c k else c)).map (· ++ [(k, v)])

/-! ### Basic lemmas about the Map primitives -/

theorem mapGet_eq_none_iff (c : List (K × V)) (k : K) :
    mapGet c k = none ↔ k ∉ c.map Prod.fst := by
  induction c with
  | nil => simp [mapGet]
  | cons x xs ih =>
    obtain ⟨a, b⟩ := x
    by_cases h : a = k
    · subst h; simp [mapGet]
    · have h' : ¬ k = a := fun hh => h hh.symm
      simp [mapGet, h, ih, h']

theorem mapGet_isSome_iff (c : List (K × V)) (k : K) :
    (mapGet c k).isSome = true ↔ k ∈ c.map Prod.fst := by
  rw [Option.isSome_iff_ne_none, ne_eq, mapGet_eq_none_iff]
  simp

theorem mapDelete_map_fst (c : List (K × V)) (k : K) :
    (mapDelete c k).map Prod.fst = (c.map Prod.fst).erase k := by
  induction c with
  | nil => simp [mapDelete]
  | cons x xs ih =>
    obtain ⟨a, b⟩ := x
    by_cases h : a = k <;> simp [mapDelete, h, List.erase_cons, ih]

theorem mapDelete_length_le (c : List (K × V)) (k : K) :
    (mapDelete c k).length ≤ c.length := by
  induction c with
  | nil => simp [mapDelete]
  | cons x xs ih =>
    obtain ⟨a, b⟩ := x
    by_cases h : a = k <;> simp [mapDelete, h] <;> omega

theorem mapDelete_of_not_mem {c : List (K × V)} {k : K}
    (h : k ∉ c.map Prod.fst) : mapDelete c k = c := by
  induction c with
  | nil => rfl
  | cons x xs ih =>
    obtain ⟨a, b⟩ := x
    simp only [List.map_cons, List.mem_cons] at h
    push_neg at h
    have h' : ¬ a = k := fun hh => h.1 hh.symm
    simp [mapDelete, h', ih h.2]

/-- A hit decomposes the cache into the deleted entry and the rest. -/
theorem mapGet_mapDelete_perm {c : List (K × V)} {k : K} {v : V}
    (h : mapGet c k = some v) : (mapDelete c k ++ [(k, v)]).Perm c := by
  induction c with
  | nil => simp [mapGet] at h
  | cons x xs ih =>
    obtain ⟨a, b⟩ := x
    by_cases hak : a = k
    · simp only [mapGet, if_pos hak] at h
      obtain rfl := hak
      obtain rfl : b = v := by injection h
      simp only [mapDelete, if_pos rfl]
      exact List.perm_append_singleton _ _
    · simp only [mapGet, if_neg hak] at h
      simp only [mapDelete, if_neg hak, List.cons_append]
      exact (ih h).cons _

/-! ### Lemmas about eviction -/

theorem evict_sublist {A : Type} (maxSize : Nat) (c : List A) :
    (evict maxSize c).Sublist c := by
  induction c with
  | nil => simp [evict]
  | cons x xs ih =>
    by_cases h : maxSize ≤ xs.length + 1
    · simpa [evict, h] using ih.cons x
    · simp [evict, h]

/-- Eviction only looks at lengths, so it commutes with `map`. -/
theorem evict_map {A B : Type} (f : A → B) (maxSize : Nat) (c : List A) :
    (evict maxSize c).map f = evict maxSize (c.map f) := by
  induction c with
  | nil => rfl
  | cons x xs ih =>
    by_cases h : maxSize ≤ xs.length + 1 <;>
      simp [evict, h, ih]

/-- With a positive capacity, the eviction loop keeps exactly the
`maxSize - 1` most recent entries: reversed (most recent first) it is a
`take`. -/
theorem evict_reverse {A : Type} (maxSize : Nat) (hN : 0 < maxSize) (c : List A) :
    (evict maxSize c).reverse = c.reverse.take (maxSize - 1) := by
  induction c with
  | nil => simp [evict]
  | cons x xs ih =>
    by_cases h : maxSize ≤ xs.length + 1
    · have hlen : maxSize - 1 ≤ xs.reverse.length := by simp; omega
      simp only [evict, if_pos h, ih, List.reverse_cons]
      rw [List.take_append_of_le_length hlen]
    · have hlen : (xs.reverse ++ [x]).length ≤ maxSize - 1 := by simp; omega
      simp only [evict, if_neg h, List.reverse_cons]
      rw [List.take_of_length_le hlen]

/-- The fuel-indexed loop terminates (and agrees with `evict`) whenever
the capacity is positive and the fuel exceeds the cache size. -/
theorem evictFuel_eq_evict {A : Type} (maxSize : Nat) (hN : 0 < maxSize) :
    ∀ (fuel : Nat) (c : List A), c.length < fuel →
      evictFuel maxSize fuel c = some (evict maxSize c) := by
  intro fuel
  induction fuel with
  | zero => intro c h; omega
  | succ f ih =>
    intro c h
    match c with
    | [] =>
      have h0 : ¬ maxSize = 0 := by omega
      simp [evictFuel, evict, h0]
    | x :: xs =>
      by_cases hc : maxSize ≤ (x :: xs).length
      · have hlen : maxSize ≤ xs.length + 1 := by simpa using hc
        have := ih xs (by simp at h ⊢; omega)
        simp [evictFuel, hc, evict, hlen, this]
      · have hlen : ¬ maxSize ≤ xs.length + 1 := by simpa using hc
        simp [evictFuel, hc, evict, hlen]

/-- With capacity 0 the loop never terminates: the `firstKey !== undefined`
guard stops it from deleting anything once the cache is empty, and the
`size >= maxSize` condition never becomes false. -/
theorem evictFuel_zero_none {A : Type} :
    ∀ (fuel : Nat), evictFuel (A := A) 0 fuel [] = none := by
  intro fuel
  induction fuel with
  | zero => rfl
  | succ f ih => simpa [evictFuel] using ih

/-! ### Sequences of cache operations and the LRU specification

A `CacheOp` is one public cache call.  `mostRecentlyTouched` is the
specification-side recency list: the distinct touched keys, most recently
touched first, where a touch is a `set` or a `get` that hits (a key is
resident exactly when it is among the `N` most recently touched keys, so
the hit test below is the specification's own notion of residency). -/

inductive CacheOp (K V : Type)
  | set (k : K) (v : V)
  | get (k : K)

/-- One cache call acting on the cache state. -/
def applyOp (N : Nat) (c : List (K × V)) : CacheOp K V → List (K × V)
  | .set k v => lruSet N c k v
  | .get k => (lruGet c k).2

/-- Run a sequence of cache calls. -/
def runOps (N : Nat) (ops : List (CacheOp K V)) (c : List (K × V)) : List (K × V) :=
  ops.foldl (applyOp N) c

/-- Specification-side recency bookkeeping (most recent first). -/
def touchStep (N : Nat) (T : List K) : CacheOp K V → List K
  | .set k _ => k :: T.erase k
  | .get k => if k ∈ T.take N then k :: T.erase k else T

/-- The distinct touched keys after a sequence of calls, most recently
touched first. -/
def mostRecentlyTouched (N : Nat) (ops : List (CacheOp K V)) (T : List K) : List K :=
  ops.foldl (touchStep N) T

/-! ### List lemmas for the LRU proof -/

theorem take_erase_take {A : Type} [DecidableEq A] (T : List A) (N : Nat) (k : A) :
    ((T.take N).erase k).take (N - 1) = (T.erase k).take (N - 1) := by
  induction T generalizing N with
  | nil => simp
  | cons t T ih =>
    match N with
    | 0 => simp
    | Nat.succ m =>
      by_cases h : t = k
      · subst h
        simp only [List.take_succ_cons, List.erase_cons_head, Nat.succ_sub_one]
        simp [List.take_take]
      · have hbeq : ¬ (t == k) = true := by simpa using h
        simp only [List.take_succ_cons, List.erase_cons, if_neg hbeq, Nat.succ_sub_one]
        match m with
        | 0 => simp
        | Nat.succ j =>
          simp only [List.take_succ_cons]
          have hih := ih (Nat.succ j)
          simp only [Nat.succ_sub_one] at hih
          rw [hih]

theorem take_erase_of_mem {A : Type} [DecidableEq A] {T : List A} {N : Nat} {k : A}
    (h : k ∈ T.take N) : (T.take N).erase k = (T.erase k).take (N - 1) := by
  induction T generalizing N with
  | nil => simp at h
  | cons t T ih =>
    match N with
    | 0 => simp at h
    | Nat.succ m =>
      by_cases hk : t = k
      · subst hk
        simp [List.take_succ_cons]
      · have hbeq : ¬ (t == k) = true := by simpa using hk
        simp only [List.take_succ_cons, List.mem_cons] at h
        rcases h with h | h
        · exact absurd h.symm hk
        · have hm : 0 < m := by
            rcases m with _ | j
            · simp at h
            · omega
          simp only [List.take_succ_cons, List.erase_cons, if_neg hbeq]
          rw [ih h]
          match m, hm with
          | Nat.succ j, _ => simp [List.take_succ_cons]

theorem erase_reverse_of_nodup {A : Type} [DecidableEq A] {l : List A}
    (h : l.Nodup) (a : A) : (l.erase a).reverse = l.reverse.erase a := by
  rw [(List.nodup_reverse.mpr h).erase_eq_filter, h.erase_eq_filter, List.filter_reverse]

/-! ### The LRU invariant -/

/-- The cache (oldest entry first) holds exactly the `N` most recently
touched keys: its key list, reversed to most-recent-first, is
`T.take N`. -/
structure LruInv (N : Nat) (c : List (K × V)) (T : List K) : Prop where
  keys_eq : (c.map Prod.fst).reverse = T.take N
  keys_nodup : (c.map Prod.fst).Nodup
  touch_nodup : T.Nodup

theorem lruInv_mem_iff {N : Nat} {c : List (K × V)} {T : List K}
    (inv : LruInv N c T) (k : K) : k ∈ c.map Prod.fst ↔ k ∈ T.take N := by
  rw [← inv.keys_eq, List.mem_reverse]

theorem lruInv_applyOp {N : Nat} (hN : 0 < N) {c : List (K × V)} {T : List K}
    (inv : LruInv N c T) (op : CacheOp K V) :
    LruInv N (applyOp N c op) (touchStep N T op) := by
  obtain ⟨m, rfl⟩ : ∃ m, N = m + 1 := ⟨N - 1, by omega⟩
  cases op with
  | set k v =>
    have hd : (if mapHas c k then mapDelete c k else c).map Prod.fst
        = (c.map Prod.fst).erase k := by
      by_cases h : mapHas c k
      · simp [h, mapDelete_map_fst]
      · have hk : k ∉ c.map Prod.fst := by
          rw [← mapGet_eq_none_iff, ← Option.not_isSome_iff_eq_none]
          simpa [mapHas] using h
        simp [h, List.erase_of_not_mem hk]
    have herase_nodup : ((c.map Prod.fst).erase k).Nodup := inv.keys_nodup.erase k
    have hsub : ((evict (m + 1) (if mapHas c k then mapDelete c k else c)).map Prod.fst).Sublist
        ((c.map Prod.fst).erase k) := by
      rw [← hd]
      exact (evict_sublist _ _).map Prod.fst
    refine ⟨?_, ?_, ?_⟩
    · show ((evict (m + 1) _ ++ [(k, v)]).map Prod.fst).reverse = (k :: T.erase k).take (m + 1)
      rw [List.map_append, List.reverse_append]
      simp only [List.map_cons, List.map_nil, List.reverse_cons, List.reverse_nil,
        List.nil_append, List.cons_append, List.nil_append]
      rw [evict_map, hd, evict_reverse _ (by omega)]
      simp only [Nat.add_sub_cancel]
      rw [erase_reverse_of_nodup inv.keys_nodup, inv.keys_eq]
      have h1 := take_erase_take T (m + 1) k
      simp only [Nat.add_sub_cancel] at h1
      rw [List.take_succ_cons, h1]
    · show ((evict (m + 1) _ ++ [(k, v)]).map Prod.fst).Nodup
      rw [List.map_append]
      simp only [List.map_cons, List.map_nil]
      rw [List.nodup_append]
      refine ⟨herase_nodup.sublist hsub, List.nodup_singleton k, ?_⟩
      intro a ha hb
      simp only [List.mem_singleton] at hb
      subst hb
      exact inv.keys_nodup.not_mem_erase (hsub.subset ha)
    · exact (inv.touch_nodup.erase k).cons (inv.touch_nodup.not_mem_erase)
  | get k =>
    match hg : mapGet c k with
    | none =>
      have hk : k ∉ c.map Prod.fst := (mapGet_eq_none_iff c k).mp hg
      have hkT : k ∉ T.take (m + 1) := fun h => hk ((lruInv_mem_iff inv k).mpr h)
      simpa [applyOp, lruGet, hg, touchStep, hkT] using inv
    | some v =>
      have hk : k ∈ c.map Prod.fst := by
        rw [← mapGet_isSome_iff, hg]; rfl
      have hkT : k ∈ T.take (m + 1) := (lruInv_mem_iff inv k).mp hk
      simp only [applyOp, lruGet, hg, touchStep, if_pos hkT]
      refine ⟨?_, ?_, ?_⟩
      · rw [List.map_append, List.reverse_append]
        simp only [List.map_cons, List.map_nil, List.reverse_cons, List.reverse_nil,
          List.nil_append, List.cons_append, List.nil_append]
        rw [mapDelete_map_fst, erase_reverse_of_nodup inv.keys_nodup, inv.keys_eq]
        have := take_erase_of_mem hkT
        simp only [Nat.add_sub_cancel] at this
        rw [List.take_succ_cons, this]
      · rw [List.map_append, mapDelete_map_fst]
        simp only [List.map_cons, List.map_nil]
        rw [List.nodup_append]
        refine ⟨inv.keys_nodup.erase k, List.nodup_singleton k, ?_⟩
        intro a ha hb
        simp only [List.mem_singleton] at hb
        subst hb
        exact inv.keys_nodup.not_mem_erase ha
      · exact (inv.touch_nodup.erase k).cons (inv.touch_nodup.not_mem_erase)

theorem lruInv_runOps {N : Nat} (hN : 0 < N) (ops : List (CacheOp K V)) :
    ∀ {c : List (K × V)} {T : List K}, LruInv N c T →
      LruInv N (runOps N ops c) (mostRecentlyTouched N ops T) := by
  induction ops with
  | nil => intro c T inv; exact inv
  | cons op ops ih =>
    intro c T inv
    simpa only [runOps, mostRecentlyTouched, List.foldl_cons] using
      ih (lruInv_applyOp hN inv op)

theorem lruInv_initial (N : Nat) : LruInv N ([] : List (K × V)) [] :=
  ⟨by simp, by simp, by simp⟩

/-- C2: for every finite sequence of `set`/`get` operations on an LRU
cache of positive capacity `N`, run from empty, the final cache holds
exactly the `min (N, number of distinct touched keys)` most recently
touched distinct keys (a touch being a `set` or a hitting `get`; a
missing `get` has no side effect), ordered oldest first; the cache size
never exceeds `N`; and after a `get` on a resident key that key is not
the next eviction candidate (the oldest entry). -/
theorem lru_retains_most_recently_touched (N : Nat) (ops : List (CacheOp K V))
    (hN : 0 < N) :
    (runOps N ops []).map Prod.fst = ((mostRecentlyTouched N ops []).take N).reverse
    ∧ (runOps N ops []).length = min N (mostRecentlyTouched N ops []).length
    ∧ (runOps N ops []).length ≤ N
    ∧ (mostRecentlyTouched N ops []).Nodup
    ∧ (∀ k, k ∈ (runOps N ops []).map Prod.fst →
        2 ≤ (runOps N (ops ++ [CacheOp.get k]) []).length →
        (runOps N (ops ++ [CacheOp.get k]) []).head?.map Prod.fst ≠ some k) := by
  have inv := lruInv_runOps hN ops (lruInv_initial N)
  have hkeys : (runOps N ops []).map Prod.fst
      = ((mostRecentlyTouched N ops []).take N).reverse := by
    rw [← inv.keys_eq, List.reverse_reverse]
  have hlen : (runOps N ops []).length = min N (mostRecentlyTouched N ops []).length := by
    have := congrArg List.length hkeys
    simpa [List.length_take] using this
  refine ⟨hkeys, hlen, by omega, inv.touch_nodup, ?_⟩
  intro k hk h2
  have hsome : (mapGet (runOps N ops []) k).isSome = true :=
    (mapGet_isSome_iff _ k).mpr hk
  obtain ⟨v, hv⟩ := Option.isSome_iff_exists.mp hsome
  have hrun : runOps N (ops ++ [CacheOp.get k]) []
      = mapDelete (runOps N ops []) k ++ [(k, v)] := by
    have hsplit : runOps N (ops ++ [CacheOp.get k]) []
        = applyOp N (runOps N ops []) (CacheOp.get k) := by
      simp [runOps, List.foldl_append]
    rw [hsplit]
    simp only [applyOp, lruGet, hv]
  rw [hrun] at h2 ⊢
  match hl : mapDelete (runOps N ops []) k with
  | [] => rw [hl] at h2; simp at h2
  | p :: rest =>
    have hp : p.1 ∈ ((runOps N ops []).map Prod.fst).erase k := by
      rw [← mapDelete_map_fst, hl]
      exact List.mem_map_of_mem Prod.fst (List.mem_cons_self p rest)
    have hpk : p.1 ≠ k := by
      intro h
      exact inv.keys_nodup.not_mem_erase (h ▸ hp)
    simpa using hpk

/-- Witness for C2 at capacity 2 with operations
set a, set b, get a, set c: the cache retains a and c. -/
theorem lru_retains_most_recently_touched_witness :
    0 < 2 ∧
    (runOps 2 [CacheOp.set "a" 1, CacheOp.set "b" 2, CacheOp.get "a", CacheOp.set "c" 3]
        []).map Prod.fst
      = ((mostRecentlyTouched 2
          [CacheOp.set "a" 1, CacheOp.set "b" 2, CacheOp.get "a", CacheOp.set "c" 3]
          []).take 2).reverse :=
  ⟨by decide,
   (lru_retains_most_recently_touched 2
      [CacheOp.set "a" 1, CacheOp.set "b" 2, CacheOp.get "a", CacheOp.set "c" 3]
      (by decide)).1⟩

/-- C10: with a positive maximum size, `LRUCache.set` terminates --- the
fuel-indexed eviction loop finishes within `size + 1` iterations and
agrees with the terminating model `lruSet`; with maximum size 0 the loop
runs forever on an empty cache; the two instantiated caches use the
positive capacities 20 and 500. -/
theorem lru_set_terminates (maxSize : Nat) (c : List (K × V)) (k : K) (v : V)
    (h : 0 < maxSize) :
    lruSetFuel maxSize (c.length + 1) c k v = some (lruSet maxSize c k v)
    ∧ (∀ fuel, evictFuel (A := K × V) 0 fuel [] = none)
    ∧ 0 < PDF_CACHE_MAX_ENTRIES ∧ 0 < THUMBNAIL_CACHE_MAX_ENTRIES := by
  refine ⟨?_, evictFuel_zero_none, by decide, by decide⟩
  have hlen : (if mapHas c k then mapDelete c k else c).length < c.length + 1 := by
    by_cases hh : mapHas c k
    · simp only [hh, if_true]
      have := mapDelete_length_le c k
      omega
    · simp [hh]
  rw [lruSetFuel, evictFuel_eq_evict maxSize h _ _ hlen]
  rfl

/-- Witness for C10 at capacity 20 on a one-entry cache. -/
theorem lru_set_terminates_witness :
    0 < 20 ∧
    lruSetFuel 20 (([("a", ["x"])] : List (String × List String)).length + 1)
        [("a", ["x"])] "b" ["p"]
      = some (lruSet 20 [("a", ["x"])] "b" ["p"]) :=
  ⟨by decide, (lru_set_terminates 20 [("a", ["x"])] "b" ["p"] (by decide)).1⟩

/-! ### Module-level caches (src/lib/cache.ts, bottom)

`pdfPagesCache` is an `LRUCache<string, string[]>(PDF_CACHE_MAX_ENTRIES)`;
`getPdfPages`/`setPdfPages` are its accessors. -/

/-- `getPdfPages` (src/lib/cache.ts lines 121-123): an LRU `get`, so a
hit also refreshes recency.  Returns the value and the updated cache. -/
def getPdfPages (c : List (String × List String)) (k : String) :
    Option (List String) × List (String × List String) :=
  lruGet c k

/-- `setPdfPages` (src/lib/cache.ts lines 125-127). -/
def setPdfPages (c : List (String × List String)) (k : String) (pages : List String) :
    List (String × List String) :=
  lruSet PDF_CACHE_MAX_ENTRIES c k pages

/-! ### Render pipeline (src/lib/pdf-utils.ts)

One invocation of `loadPdf`/`prefetchPdf` is modelled as a sequential
function over an environment describing the external world (network and
pdf.js) and the shared mutable state (the pdf-pages cache and the
in-flight prefetch set).  Observable actions are recorded as events. -/

/-- External behaviour of one render attempt.  `abortedAt j` is the value
of `signal?.aborted` observed at the `j`-th cooperative check (check 0 is
the one right after `loadingTask.promise` resolves, check `j ≥ 1` the one
at the top of the page-`j` loop iteration). -/
structure RenderEnv where
  numPages : Nat
  pageImage : Nat → String
  renderFails : Nat → Bool
  abortedAt : Nat → Bool
  loadFails : Bool

/-- Shared mutable module state: the pdf-pages LRU cache
(`pdfPagesCache`) and the in-flight dedup set (`prefetchingSet`). -/
structure PipelineState where
  pdfCache : List (String × List String)
  prefetching : List String
deriving DecidableEq

/-- Observable actions of one call, in order of occurrence. -/
inductive Ev
  | fetch
  | pageReady (pages : List String) (pageNum : Nat) (total : Nat)
  | cacheWrite (key : String) (pages : List String)
  | setPages (pages : List String)
deriving DecidableEq

def Ev.isPageReady : Ev → Bool
  | .pageReady _ _ _ => true
  | _ => false

def Ev.isCacheWrite : Ev → Bool
  | .cacheWrite _ _ => true
  | _ => false

/-- Result of one `loadPdf` call: the promise resolves with the pages,
or rejects with the `"Aborted"` error thrown at a cancellation check, or
rejects with some other error. -/
inductive LoadOutcome
  | ok (pages : List String)
  | aborted
  | failed (msg : String)
deriving DecidableEq

/-- The page loop of `loadPdf` (src/lib/pdf-utils.ts lines 86-111):
check the abort signal, render the page, push it, invoke the
`onPageRendered` callback with a snapshot of the pages so far, the page
number and the total.  `k` is the current page number, `m` the number of
pages still to do. -/
def renderLoop (env : RenderEnv) : Nat → Nat → List String → LoadOutcome × List Ev
  | _, 0, acc => (.ok acc, [])
  | k, m + 1, acc =>
    if env.abortedAt k then (.aborted, [])
    else if env.renderFails k then (.failed "Failed to render page", [])
    else
      let acc2 := acc ++ [env.pageImage k]
      let r := renderLoop env (k + 1) m acc2
      (r.1, Ev.pageReady acc2 k env.numPages :: r.2)

/-- `loadPdf` after the cache check (src/lib/pdf-utils.ts lines 73-118):
fetch the document, check the signal, run the page loop, and cache the
pages if any were produced. -/
def loadPdfBody (env : RenderEnv) (key : String) (st : PipelineState) :
    LoadOutcome × List Ev × PipelineState :=
  if env.loadFails then (.failed "Failed to load PDF", [Ev.fetch], st)
  else if env.abortedAt 0 then (.aborted, [Ev.fetch], st)
  else
    let r := renderLoop env 1 env.numPages []
    match r.1 with
    | .ok pages =>
      if pages.length > 0 then
        (.ok pages, Ev.fetch :: r.2 ++ [Ev.cacheWrite key pages],
         { st with pdfCache := setPdfPages st.pdfCache key pages })
      else (.ok pages, Ev.fetch :: r.2, st)
    | o => (o, Ev.fetch :: r.2, st)

/-- `loadPdf` (src/lib/pdf-utils.ts lines 62-119): return the cached
pages if present and non-empty, else run the render body. -/
def loadPdfModel (env : RenderEnv) (key : String) (st : PipelineState) :
    LoadOutcome × List Ev × PipelineState :=
  let g := getPdfPages st.pdfCache key
  let st1 : PipelineState := { st with pdfCache := g.2 }
  match g.1 with
  | some pages =>
    if pages.length > 0 then (.ok pages, [], st1)
    else loadPdfBody env key st1
  | none => loadPdfBody env key st1

/-- The page loop of `prefetchPdf` (src/lib/pdf-utils.ts lines 29-46):
no abort signal and no callback; `none` means a page render threw. -/
def prefetchLoop (env : RenderEnv) : Nat → Nat → List String → Option (List String)
  | _, 0, acc => some acc
  | k, m + 1, acc =>
    if env.renderFails k then none
    else prefetchLoop env (k + 1) m (acc ++ [env.pageImage k])

/-- The `try` body of `prefetchPdf` (src/lib/pdf-utils.ts lines 19-50):
fetch, render all pages, cache them if any.  The `Except` is the
exception that the surrounding `catch` will swallow. -/
def prefetchTryBody (env : RenderEnv) (key : String) (st : PipelineState) :
    Except String Unit × PipelineState × List Ev :=
  if env.loadFails then (.error "Failed to load PDF", st, [Ev.fetch])
  else
    match prefetchLoop env 1 env.numPages [] with
    | none => (.error "Failed to render page", st, [Ev.fetch])
    | some pages =>
      if pages.length > 0 then
        (.ok (), { st with pdfCache := setPdfPages st.pdfCache key pages },
         [Ev.fetch, Ev.cacheWrite key pages])
      else (.ok (), st, [Ev.fetch])

/-- `prefetchPdf` (src/lib/pdf-utils.ts lines 11-56): skip if already
cached or already prefetching (the cache probe also refreshes recency on
a hit); otherwise mark in-flight, run the body, swallow any error
(`catch {}`), and unconditionally clear the in-flight marker
(`finally`).  The returned `Except` is the outcome of the promise. -/
def prefetchPdfModel (env : RenderEnv) (key : String) (st : PipelineState) :
    PipelineState × List Ev × Except String Unit :=
  let g := getPdfPages st.pdfCache key
  let st1 : PipelineState := { st with pdfCache := g.2 }
  if g.1.isSome || st.prefetching.contains key then (st1, [], .ok ())
  else
    let st2 : PipelineState := { st1 with prefetching := key :: st1.prefetching }
    let b := prefetchTryBody env key st2
    ({ b.2.1 with prefetching := b.2.1.prefetching.erase key }, b.2.2, .ok ())

/-! ### Lemmas about the pipeline -/

theorem lruGet_miss {c : List (K × V)} {k : K} (h : mapGet c k = none) :
    lruGet c k = (none, c) := by
  simp [lruGet, h]

theorem mapGet_append_of_none {l₁ l₂ : List (K × V)} {k : K}
    (h : mapGet l₁ k = none) : mapGet (l₁ ++ l₂) k = mapGet l₂ k := by
  induction l₁ with
  | nil => rfl
  | cons x xs ih =>
    obtain ⟨a, b⟩ := x
    by_cases hak : a = k
    · simp [mapGet, hak] at h
    · simp only [mapGet, if_neg hak] at h ⊢
      exact ih h

/-- Inserting a fresh key makes it resident. -/
theorem mapGet_lruSet_self {N : Nat} {c : List (K × V)} {k : K} (v : V)
    (h : mapGet c k = none) : mapGet (lruSet N c k v) k = some v := by
  have hk : k ∉ c.map Prod.fst := (mapGet_eq_none_iff c k).mp h
  have hhas : mapHas c k = false := by
    simp [mapHas, h]
  have hev : mapGet (evict N c) k = none := by
    rw [mapGet_eq_none_iff]
    intro hm
    exact hk (((evict_sublist N c).map Prod.fst).subset hm)
  rw [lruSet, hhas]
  simp only [Bool.false_eq_true, if_false]
  rw [mapGet_append_of_none hev]
  simp [mapGet]

/-- The page loop of `loadPdf` emits page-ready events only. -/
theorem renderLoop_events_pageReady (env : RenderEnv) :
    ∀ (m k : Nat) (acc : List String) (e : Ev),
      e ∈ (renderLoop env k m acc).2 → e.isPageReady = true := by
  intro m
  induction m with
  | zero => intro k acc e he; simp [renderLoop] at he
  | succ m ih =>
    intro k acc e he
    by_cases ha : env.abortedAt k
    · simp [renderLoop, ha] at he
    · by_cases hf : env.renderFails k
      · simp [renderLoop, ha, hf] at he
      · simp only [renderLoop, ha, hf, Bool.false_eq_true, if_false, List.mem_cons] at he
        rcases he with rfl | he
        · rfl
        · exact ih (k + 1) _ e he

theorem range_map_shift {A : Type} (f : Nat → A) (k m : Nat) :
    (List.range (m + 1)).map (fun i => f (k + i))
      = f k :: (List.range m).map (fun i => f (k + 1 + i)) := by
  rw [List.range_succ_eq_map]
  simp only [List.map_cons, Nat.add_zero, List.map_map]
  congr 1
  apply List.map_congr_left
  intro i _
  simp only [Function.comp_apply]
  congr 1
  omega

theorem renderLoop_events_shift (env : RenderEnv) (k m : Nat) (acc : List String) :
    (List.range (m + 1)).map (fun i =>
        Ev.pageReady (acc ++ (List.range (i + 1)).map fun j => env.pageImage (k + j))
          (k + i) env.numPages)
      = Ev.pageReady (acc ++ [env.pageImage k]) k env.numPages ::
        (List.range m).map (fun i =>
          Ev.pageReady
            ((acc ++ [env.pageImage k]) ++ (List.range (i + 1)).map fun j =>
              env.pageImage (k + 1 + j))
            (k + 1 + i) env.numPages) := by
  rw [List.range_succ_eq_map, List.map_cons, List.map_map]
  congr 1
  apply List.map_congr_left
  intro a ha
  simp only [Function.comp_apply, Nat.succ_eq_add_one]
  rw [range_map_shift env.pageImage k (a + 1)]
  have h2 : k + (a + 1) = k + 1 + a := by omega
  rw [h2, List.append_assoc]
  rfl

/-- Closed form of the page loop when nothing aborts or fails: all
remaining pages are rendered and one callback fires per page, with the
cumulative list, the page number and the total. -/
theorem renderLoop_ok (env : RenderEnv)
    (habort : ∀ j, env.abortedAt j = false) (hfail : ∀ j, env.renderFails j = false) :
    ∀ (m k : Nat) (acc : List String),
      renderLoop env k m acc
        = (.ok (acc ++ (List.range m).map fun i => env.pageImage (k + i)),
           (List.range m).map fun i =>
             Ev.pageReady (acc ++ (List.range (i + 1)).map fun j => env.pageImage (k + j))
               (k + i) env.numPages) := by
  intro m
  induction m with
  | zero => intro k acc; simp [renderLoop]
  | succ m ih =>
    intro k acc
    simp only [renderLoop, habort, hfail, Bool.false_eq_true, if_false]
    rw [ih (k + 1) (acc ++ [env.pageImage k])]
    simp only [Prod.mk.injEq, LoadOutcome.ok.injEq]
    constructor
    · rw [range_map_shift env.pageImage k m, List.append_assoc]
      rfl
    · rw [renderLoop_events_shift env k m acc]

theorem prefetchTryBody_prefetching (env : RenderEnv) (key : String) (st : PipelineState) :
    (prefetchTryBody env key st).2.1.prefetching = st.prefetching := by
  unfold prefetchTryBody
  split
  · rfl
  · split
    · rfl
    · split <;> rfl

/-! ### Claims about the render pipeline and the prefetch scheduler -/

/-- C3: if a `loadPdf` attempt on an uncached document ends in
cancellation or failure (after however many of its pages were produced),
the pdf-pages cache still has no entry for that key, the shared state is
untouched, and no cache-write action occurred. -/
theorem no_partial_cache_write (env : RenderEnv) (key : String) (st : PipelineState)
    (h0 : mapGet st.pdfCache key = none)
    (herr : (loadPdfModel env key st).1 = .aborted ∨
            ∃ msg, (loadPdfModel env key st).1 = .failed msg) :
    mapGet (loadPdfModel env key st).2.2.pdfCache key = none
    ∧ (loadPdfModel env key st).2.2 = st
    ∧ ∀ e ∈ (loadPdfModel env key st).2.1, e.isCacheWrite = false := by
  have hmodel : loadPdfModel env key st = loadPdfBody env key st := by
    rw [loadPdfModel, getPdfPages, lruGet_miss h0]
  rw [hmodel] at herr ⊢
  by_cases hl : env.loadFails
  · refine ⟨?_, ?_, ?_⟩ <;> simp [loadPdfBody, hl, Ev.isCacheWrite, h0]
  · by_cases ha : env.abortedAt 0
    · refine ⟨?_, ?_, ?_⟩ <;> simp [loadPdfBody, hl, ha, Ev.isCacheWrite, h0]
    · match hr : (renderLoop env 1 env.numPages []).1 with
      | .ok pages =>
        exfalso
        by_cases hp : pages.length > 0 <;>
          rcases herr with herr | ⟨msg, herr⟩ <;>
          simp [loadPdfBody, hl, ha, hr, hp] at herr
      | .aborted =>
        refine ⟨?_, ?_, ?_⟩ <;>
          simp only [loadPdfBody, hl, ha, hr, Bool.false_eq_true, if_false] <;>
          try simp [h0]
        refine ⟨rfl, ?_⟩
        intro e he
        have := renderLoop_events_pageReady env env.numPages 1 [] e he
        cases e <;> simp_all [Ev.isPageReady, Ev.isCacheWrite]
      | .failed msg =>
        refine ⟨?_, ?_, ?_⟩ <;>
          simp only [loadPdfBody, hl, ha, hr, Bool.false_eq_true, if_false] <;>
          try simp [h0]
        refine ⟨rfl, ?_⟩
        intro e he
        have := renderLoop_events_pageReady env env.numPages 1 [] e he
        cases e <;> simp_all [Ev.isPageReady, Ev.isCacheWrite]

/-- Witness for C3: a 5-page document whose abort signal is observed at
the page-3 check (2 pages already produced) ends aborted and leaves no
cache entry. -/
theorem no_partial_cache_write_witness :
    mapGet (loadPdfModel
        ⟨5, fun n => toString n, fun _ => false, fun j => decide (3 ≤ j), false⟩
        "doc" ⟨[], []⟩).2.2.pdfCache "doc" = none :=
  (no_partial_cache_write
      ⟨5, fun n => toString n, fun _ => false, fun j => decide (3 ≤ j), false⟩
      "doc" ⟨[], []⟩ (by decide) (Or.inl (by decide))).1

/-- C4: opening an uncached `M`-page document with no manifest entry
(the `loadPdf` path has no manifest at all), with no abort and no
failure, fetches once and fires the page callback exactly `M` times; the
`k`-th invocation carries the cumulative page list of length `k`, the
page number `k` and the total `M`, in strictly increasing page order with
no gaps; and the cache write is the last event, after the `M`-th
callback, making the document resident with the full sequence. -/
theorem progressive_render_callbacks (env : RenderEnv) (key : String) (st : PipelineState)
    (h0 : mapGet st.pdfCache key = none)
    (hload : env.loadFails = false)
    (habort : ∀ j, env.abortedAt j = false)
    (hfail : ∀ j, env.renderFails j = false)
    (hM : 0 < env.numPages) :
    loadPdfModel env key st
      = (.ok ((List.range env.numPages).map fun i => env.pageImage (1 + i)),
         Ev.fetch ::
           ((List.range env.numPages).map fun i =>
              Ev.pageReady ((List.range (i + 1)).map fun j => env.pageImage (1 + j))
                (1 + i) env.numPages)
           ++ [Ev.cacheWrite key ((List.range env.numPages).map fun i => env.pageImage (1 + i))],
         { st with pdfCache := (setPdfPages st.pdfCache key
             ((List.range env.numPages).map fun i => env.pageImage (1 + i))) })
    ∧ ((loadPdfModel env key st).2.1.filter Ev.isPageReady).length = env.numPages
    ∧ mapGet (loadPdfModel env key st).2.2.pdfCache key
        = some ((List.range env.numPages).map fun i => env.pageImage (1 + i)) := by
  have hmodel : loadPdfModel env key st = loadPdfBody env key st := by
    rw [loadPdfModel, getPdfPages, lruGet_miss h0]
  have hloop := renderLoop_ok env habort hfail env.numPages 1 []
  simp only [List.nil_append] at hloop
  have hlen : ((List.range env.numPages).map fun i => env.pageImage (1 + i)).length > 0 := by
    simp [hM]
  have hbody : loadPdfBody env key st
      = (.ok ((List.range env.numPages).map fun i => env.pageImage (1 + i)),
         Ev.fetch ::
           ((List.range env.numPages).map fun i =>
              Ev.pageReady ((List.range (i + 1)).map fun j => env.pageImage (1 + j))
                (1 + i) env.numPages)
           ++ [Ev.cacheWrite key ((List.range env.numPages).map fun i => env.pageImage (1 + i))],
         { st with pdfCache := (setPdfPages st.pdfCache key
             ((List.range env.numPages).map fun i => env.pageImage (1 + i))) }) := by
    rw [loadPdfBody, hload, habort 0]
    simp only [Bool.false_eq_true, if_false, hloop]
    rw [if_pos hlen]
  have hmain := hmodel.trans hbody
  refine ⟨hmain, ?_, ?_⟩
  · rw [hmain]
    simp [List.filter_append, List.filter_map, Function.comp, Ev.isPageReady, Ev.isCacheWrite]
    have hfil : List.filter
        (Ev.isPageReady ∘ fun i =>
          Ev.pageReady ((List.range (i + 1)).map fun j => env.pageImage (1 + j)) (1 + i)
            env.numPages)
        (List.range env.numPages) = List.range env.numPages :=
      List.filter_eq_self.mpr (fun a _ => rfl)
    rw [hfil]
    exact List.length_range env.numPages
  · rw [hmain]
    exact mapGet_lruSet_self _ h0

/-- Witness for C4 with a 3-page document: the exact event trace. -/
theorem progressive_render_callbacks_witness :
    loadPdfModel ⟨3, (fun n => toString n), fun _ => false, fun _ => false, false⟩
        "doc" ⟨[], []⟩
      = (.ok ((List.range 3).map fun i => toString (1 + i)),
         Ev.fetch ::
           ((List.range 3).map fun i =>
              Ev.pageReady ((List.range (i + 1)).map fun j => toString (1 + j)) (1 + i) 3)
           ++ [Ev.cacheWrite "doc" ((List.range 3).map fun i => toString (1 + i))],
         { pdfCache := setPdfPages [] "doc" ((List.range 3).map fun i => toString (1 + i)),
           prefetching := [] }) :=
  (progressive_render_callbacks
      ⟨3, (fun n => toString n), fun _ => false, fun _ => false, false⟩ "doc" ⟨[], []⟩
      (by decide) rfl (fun _ => rfl) (fun _ => rfl) (by decide)).1

/-- C7: a `prefetchPdf` call never leaves its key marked in-flight: the
`finally` clears the marker on success, failure and the no-op path
alike, so the in-flight set after the call equals the set before it, and
the `catch` swallows every failure, so the promise always resolves. -/
theorem prefetch_clears_inflight (env : RenderEnv) (key : String) (st : PipelineState) :
    (prefetchPdfModel env key st).1.prefetching = st.prefetching
    ∧ (prefetchPdfModel env key st).2.2 = Except.ok () := by
  by_cases hg : ((getPdfPages st.pdfCache key).1.isSome || st.prefetching.contains key) = true
  · have h1 : prefetchPdfModel env key st
        = ({ st with pdfCache := (getPdfPages st.pdfCache key).2 }, [], Except.ok ()) := by
      simp only [prefetchPdfModel]
      rw [if_pos hg]
    rw [h1]
    exact ⟨rfl, rfl⟩
  · have h1 : prefetchPdfModel env key st
        = ({ (prefetchTryBody env key
                { pdfCache := (getPdfPages st.pdfCache key).2,
                  prefetching := key :: st.prefetching }).2.1 with
              prefetching := (prefetchTryBody env key
                { pdfCache := (getPdfPages st.pdfCache key).2,
                  prefetching := key :: st.prefetching }).2.1.prefetching.erase key },
           (prefetchTryBody env key
              { pdfCache := (getPdfPages st.pdfCache key).2,
                prefetching := key :: st.prefetching }).2.2,
           Except.ok ()) := by
      simp only [prefetchPdfModel]
      rw [if_neg hg]
    rw [h1]
    refine ⟨?_, rfl⟩
    show ((prefetchTryBody env key _).2.1.prefetching).erase key = st.prefetching
    rw [prefetchTryBody_prefetching]
    exact List.erase_cons_head key st.prefetching

/-- C8: a zero-page uncached document loads as the empty sequence with
no cache write and no error (`ok []`, not `aborted`/`failed`), leaving
the shared state untouched; a prefetch of it likewise writes nothing
and restores the state. -/
theorem zero_page_never_cached (env : RenderEnv) (key : String) (st : PipelineState)
    (hM : env.numPages = 0) (hload : env.loadFails = false)
    (habort : env.abortedAt 0 = false) (h0 : mapGet st.pdfCache key = none)
    (hpf : st.prefetching.contains key = false) :
    loadPdfModel env key st = (.ok [], [Ev.fetch], st)
    ∧ mapGet (loadPdfModel env key st).2.2.pdfCache key = none
    ∧ prefetchPdfModel env key st = (st, [Ev.fetch], Except.ok ()) := by
  have hmodel : loadPdfModel env key st = loadPdfBody env key st := by
    rw [loadPdfModel, getPdfPages, lruGet_miss h0]
  have hload' : loadPdfBody env key st = (.ok [], [Ev.fetch], st) := by
    rw [loadPdfBody, hload, habort]
    simp only [Bool.false_eq_true, if_false, hM]
    rfl
  refine ⟨hmodel.trans hload', ?_, ?_⟩
  · rw [hmodel.trans hload']
    exact h0
  · have hgp : getPdfPages st.pdfCache key = (none, st.pdfCache) := by
      rw [getPdfPages]; exact lruGet_miss h0
    have hguard : ¬ (((getPdfPages st.pdfCache key).1.isSome
        || st.prefetching.contains key) = true) := by
      rw [hgp, hpf]
      simp
    have hbody : prefetchTryBody env key
        (⟨(getPdfPages st.pdfCache key).2, key :: st.prefetching⟩ : PipelineState)
        = (.ok (), (⟨(getPdfPages st.pdfCache key).2, key :: st.prefetching⟩ : PipelineState),
           [Ev.fetch]) := by
      simp [prefetchTryBody, hload, hM, prefetchLoop]
    simp only [prefetchPdfModel]
    rw [if_neg hguard, hbody]
    simp [hgp, List.erase_cons_head]

/-- Witness for C8: a zero-page document on empty state. -/
theorem zero_page_never_cached_witness :
    loadPdfModel ⟨0, (fun n => toString n), fun _ => false, fun _ => false, false⟩
        "doc" ⟨[], []⟩
      = (.ok [], [Ev.fetch], ⟨[], []⟩) :=
  (zero_page_never_cached
      ⟨0, (fun n => toString n), fun _ => false, fun _ => false, false⟩ "doc" ⟨[], []⟩
      rfl rfl rfl (by decide) (by decide)).1

/-- C6 counterexample: with key "a" resident (and least recently used),
`prefetchPdf "a"` is gated by the cache check, but that check is an LRU
`get` and moves "a" to the most-recently-used position, so the observable
state is not unchanged. -/
theorem prefetch_guard_bumps_recency :
    (prefetchPdfModel ⟨0, (fun _ => ""), fun _ => false, fun _ => false, false⟩ "a"
        ⟨[("a", ["pa"]), ("b", ["pb"])], []⟩).1
      ≠ ⟨[("a", ["pa"]), ("b", ["pb"])], []⟩ := by
  decide

/-- C6 (amended): if the key is cache-resident or in-flight,
`prefetchPdf` performs no fetch or render work (no events), leaves the
in-flight set unchanged and keeps exactly the same cache entries --- but
the residency probe is an LRU `get`, so the only state change is that a
resident key is refreshed to most-recently-used. -/
theorem prefetch_guard_noop (env : RenderEnv) (key : String) (st : PipelineState)
    (h : ((getPdfPages st.pdfCache key).1.isSome || st.prefetching.contains key) = true) :
    prefetchPdfModel env key st
      = ({ st with pdfCache := (getPdfPages st.pdfCache key).2 }, [], Except.ok ())
    ∧ (prefetchPdfModel env key st).1.prefetching = st.prefetching
    ∧ ((prefetchPdfModel env key st).1.pdfCache).Perm st.pdfCache := by
  have h1 : prefetchPdfModel env key st
      = ({ st with pdfCache := (getPdfPages st.pdfCache key).2 }, [], Except.ok ()) := by
    simp only [prefetchPdfModel]
    rw [if_pos h]
  refine ⟨h1, by rw [h1], ?_⟩
  rw [h1]
  show ((getPdfPages st.pdfCache key).2).Perm st.pdfCache
  cases hmg : mapGet st.pdfCache key with
  | none => simp [getPdfPages, lruGet, hmg]
  | some v =>
    simp only [getPdfPages, lruGet, hmg]
    exact mapGet_mapDelete_perm hmg

/-- Witness for C6's amended claim on the counterexample state. -/
theorem prefetch_guard_noop_witness :
    prefetchPdfModel ⟨0, (fun _ => ""), fun _ => false, fun _ => false, false⟩ "a"
        ⟨[("a", ["pa"]), ("b", ["pb"])], []⟩
      = ({ (⟨[("a", ["pa"]), ("b", ["pb"])], []⟩ : PipelineState) with
            pdfCache := (getPdfPages [("a", ["pa"]), ("b", ["pb"])] "a").2 },
         [], Except.ok ()) :=
  (prefetch_guard_noop ⟨0, (fun _ => ""), fun _ => false, fun _ => false, false⟩ "a"
      ⟨[("a", ["pa"]), ("b", ["pb"])], []⟩ (by decide)).1

/-! ### Manifest-backed fast path

`getPageImageUrl` / `loadPagesFromImages` and the `loadPages` effect of
`src/app/file-browser.tsx` (lines 154-167 and 554-651; the same helpers
appear in the search-utils module). -/

/-- `WORKER_URL` (src/lib/constants.ts; the production branch of the
`NODE_ENV` conditional). -/
def WORKER_URL : String := "https://epstein-files.rhys-669.workers.dev"

/-- JavaScript `String.prototype.padStart(n, c)`. -/
def padStart (s : String) (n : Nat) (c : Char) : String :=
  String.mk (List.replicate (n - s.data.length) c ++ s.data)

/-- Helper for `replaceFirst`: replace the first occurrence of `pat`. -/
def replaceFirstAux (pat rep : List Char) : List Char → List Char
  | [] => []
  | c :: cs =>
    if pat = (c :: cs).take pat.length then rep ++ (c :: cs).drop pat.length
    else c :: replaceFirstAux pat rep cs

/-- JavaScript `String.prototype.replace` with a plain-string pattern:
replaces only the first occurrence. -/
def replaceFirst (s pat rep : String) : String :=
  String.mk (replaceFirstAux pat.data rep.data s.data)

/-- `getPageImageUrl` (src/app/file-browser.tsx lines 154-158): the
deterministic pre-rendered page image URL, built from the document key
(with its ".pdf" suffix dropped) and the zero-padded 1-based page
number. -/
def getPageImageUrl (pdfKey : String) (pageNum : Nat) : String :=
  WORKER_URL ++ "/pdfs-as-jpegs/" ++ replaceFirst pdfKey ".pdf" ""
    ++ "/page-" ++ padStart (toString pageNum) 3 '0' ++ ".jpg"

/-- `loadPagesFromImages` (src/app/file-browser.tsx lines 161-167): the
URLs of pages 1..pageCount, in order. -/
def loadPagesFromImages (filePath : String) (pageCount : Nat) : List String :=
  (List.range pageCount).map (fun i => getPageImageUrl filePath (i + 1))

/-- Result of the `loadPages` effect: pages displayed, or a silent
cancellation, or an error shown to the user. -/
inductive BrowserOutcome
  | okB (pages : List String)
  | cancelledB
  | errorB (msg : String)
deriving DecidableEq

/-- The environment of one `loadPages` run: the manifest, the pdf.js
world for the fallback, and the `cancelled` flag as observed at each
cooperative check (check 0 right after the first await of the taken
path, check `k ≥ 1` at the top of the page-`k` fallback iteration,
check `numPages + 1` at the fallback's final cache-write guard). -/
structure BrowserEnv where
  manifest : String → Option Nat
  pdf : RenderEnv
  cancelledAt : Nat → Bool

/-- The fallback rasterization loop of `loadPages`
(src/app/file-browser.tsx lines 607-629): check `cancelled`, render the
page, display the pages so far via `setPages`. -/
def browserLoop (env : BrowserEnv) : Nat → Nat → List String → BrowserOutcome × List Ev
  | _, 0, acc => (.okB acc, [])
  | k, m + 1, acc =>
    if env.cancelledAt k then (.cancelledB, [])
    else if env.pdf.renderFails k then (.errorB "Failed to load PDF", [])
    else
      let acc2 := acc ++ [env.pdf.pageImage k]
      let r := browserLoop env (k + 1) m acc2
      (r.1, Ev.setPages acc2 :: r.2)

/-- The fallback path of `loadPages` (src/app/file-browser.tsx lines
594-633): fetch the document, check `cancelled`, run the loop, and cache
the pages when not cancelled and non-empty. -/
def loadPagesFallback (env : BrowserEnv) (key : String) (st : PipelineState) :
    BrowserOutcome × List Ev × PipelineState :=
  if env.pdf.loadFails then (.errorB "Failed to load PDF", [Ev.fetch], st)
  else if env.cancelledAt 0 then (.cancelledB, [Ev.fetch], st)
  else
    let r := browserLoop env 1 env.pdf.numPages []
    match r.1 with
    | .okB pages =>
      if env.cancelledAt (env.pdf.numPages + 1) then (.okB pages, Ev.fetch :: r.2, st)
      else if pages.length > 0 then
        (.okB pages, Ev.fetch :: r.2 ++ [Ev.cacheWrite key pages],
         { st with pdfCache := (setPdfPages st.pdfCache key pages) })
      else (.okB pages, Ev.fetch :: r.2, st)
    | o => (o, Ev.fetch :: r.2, st)

/-- The manifest branch plus fallback of `loadPages`
(src/app/file-browser.tsx lines 573-644): if the manifest reports a
positive page count, build the URLs directly, check `cancelled` once
(after the awaited `loadPagesFromImages`), display them and cache them;
otherwise rasterize. -/
def loadPagesBody (env : BrowserEnv) (key : String) (st : PipelineState) :
    BrowserOutcome × List Ev × PipelineState :=
  match env.manifest key with
  | some p =>
    if p > 0 then
      if env.cancelledAt 0 then (.cancelledB, [], st)
      else
        (.okB (loadPagesFromImages key p),
         [Ev.setPages (loadPagesFromImages key p),
          Ev.cacheWrite key (loadPagesFromImages key p)],
         { st with pdfCache := (setPdfPages st.pdfCache key (loadPagesFromImages key p)) })
    else loadPagesFallback env key st
  | none => loadPagesFallback env key st

/-- The whole `loadPages` effect (src/app/file-browser.tsx lines
554-651): serve a non-empty cached entry directly, else run the body. -/
def loadPagesModel (env : BrowserEnv) (key : String) (st : PipelineState) :
    BrowserOutcome × List Ev × PipelineState :=
  let g := getPdfPages st.pdfCache key
  let st1 : PipelineState := { st with pdfCache := g.2 }
  match g.1 with
  | some pages =>
    if pages.length > 0 then (.okB pages, [Ev.setPages pages], st1)
    else loadPagesBody env key st1
  | none => loadPagesBody env key st1

/-- C5: opening an uncached document whose manifest entry reports `P > 0`
pages yields exactly the `P` deterministic page-image URLs of
`loadPagesFromImages`, in increasing page order (the `i`-th is built
from the key and the zero-padded page index `i + 1`), performs no fetch
and no rasterization (the only events are the page display and the cache
write), and the document becomes cache-resident with exactly that
sequence. -/
theorem manifest_fast_path (env : BrowserEnv) (key : String) (st : PipelineState)
    (P : Nat) (h0 : mapGet st.pdfCache key = none)
    (hman : env.manifest key = some P) (hP : 0 < P)
    (hcancel : env.cancelledAt 0 = false) :
    loadPagesModel env key st
      = (.okB (loadPagesFromImages key P),
         [Ev.setPages (loadPagesFromImages key P),
          Ev.cacheWrite key (loadPagesFromImages key P)],
         { st with pdfCache := (setPdfPages st.pdfCache key (loadPagesFromImages key P)) })
    ∧ (loadPagesFromImages key P).length = P
    ∧ (∀ i (h : i < (loadPagesFromImages key P).length),
        (loadPagesFromImages key P).get ⟨i, h⟩ = getPageImageUrl key (i + 1))
    ∧ mapGet (loadPagesModel env key st).2.2.pdfCache key
        = some (loadPagesFromImages key P) := by
  have hmodel : loadPagesModel env key st = loadPagesBody env key st := by
    rw [loadPagesModel, getPdfPages, lruGet_miss h0]
  have hmain : loadPagesModel env key st
      = (.okB (loadPagesFromImages key P),
         [Ev.setPages (loadPagesFromImages key P),
          Ev.cacheWrite key (loadPagesFromImages key P)],
         { st with pdfCache := (setPdfPages st.pdfCache key (loadPagesFromImages key P)) }) := by
    rw [hmodel, loadPagesBody, hman]
    simp [hP, hcancel]
  refine ⟨hmain, ?_, ?_, ?_⟩
  · simp [loadPagesFromImages]
  · intro i h
    simp [loadPagesFromImages]
  · rw [hmain]
    exact mapGet_lruSet_self _ h0

/-- Witness for C5: a 3-page manifest entry; also checks the concrete
zero-padded URL shape on one page. -/
theorem manifest_fast_path_witness :
    loadPagesModel
        ⟨fun k => if k = "d.pdf" then some 3 else none,
         ⟨0, (fun _ => ""), fun _ => false, fun _ => false, false⟩,
         fun _ => false⟩
        "d.pdf" ⟨[], []⟩
      = (.okB (loadPagesFromImages "d.pdf" 3),
         [Ev.setPages (loadPagesFromImages "d.pdf" 3),
          Ev.cacheWrite "d.pdf" (loadPagesFromImages "d.pdf" 3)],
         { pdfCache := (setPdfPages [] "d.pdf" (loadPagesFromImages "d.pdf" 3)),
           prefetching := [] })
    ∧ getPageImageUrl "d.pdf" 2
        = "https://epstein-files.rhys-669.workers.dev/pdfs-as-jpegs/d/page-002.jpg" :=
  ⟨(manifest_fast_path
      ⟨fun k => if k = "d.pdf" then some 3 else none,
       ⟨0, (fun _ => ""), fun _ => false, fun _ => false, false⟩,
       fun _ => false⟩
      "d.pdf" ⟨[], []⟩ 3 (by decide) (by decide) (by decide) rfl).1,
   by decide⟩

/-! ### Navigation controller (src/app/file-browser.tsx lines 1135-1160) -/

/-- A document record from the listing (src/lib/cache.ts `FileItem`). -/
structure FileItem where
  key : String
  size : Nat
  uploaded : String
deriving DecidableEq

/-- `selectedFileIndex` (src/app/file-browser.tsx lines 1136-1140):
`findIndex` of the open key in the filtered view; `index >= 0 ? index :
null` makes an absent key (or no open file) `null`. -/
def selectedFileIndex (openFile : Option String) (filteredFiles : List FileItem) :
    Option Nat :=
  match openFile with
  | none => none
  | some key => filteredFiles.findIdx? (fun f => f.key == key)

/-- `selectedFile` (line 1142). -/
def selectedFile (openFile : Option String) (filteredFiles : List FileItem) :
    Option FileItem :=
  match selectedFileIndex openFile filteredFiles with
  | none => none
  | some i => filteredFiles[i]?

/-- `hasPrev` (line 1143). -/
def hasPrev (openFile : Option String) (filteredFiles : List FileItem) : Bool :=
  match selectedFileIndex openFile filteredFiles with
  | none => false
  | some i => decide (0 < i)

/-- `hasNext` (line 1144). -/
def hasNext (openFile : Option String) (filteredFiles : List FileItem) : Bool :=
  match selectedFileIndex openFile filteredFiles with
  | none => false
  | some i => decide (i < filteredFiles.length - 1)

/-- `handlePrev` (lines 1146-1150): open the previous file when there is
one, else do nothing. -/
def handlePrev (openFile : Option String) (filteredFiles : List FileItem) :
    Option String :=
  match selectedFileIndex openFile filteredFiles with
  | some i => if 0 < i then (filteredFiles[i - 1]?).map FileItem.key else openFile
  | none => openFile

/-- `handleNext` (lines 1152-1156). -/
def handleNext (openFile : Option String) (filteredFiles : List FileItem) :
    Option String :=
  match selectedFileIndex openFile filteredFiles with
  | some i =>
    if i < filteredFiles.length - 1 then (filteredFiles[i + 1]?).map FileItem.key
    else openFile
  | none => openFile

theorem findIdx?_key (key : String) (files : List FileItem) :
    files.findIdx? (fun f => f.key == key)
      = if key ∈ files.map FileItem.key
        then some ((files.map FileItem.key).indexOf key) else none := by
  induction files with
  | nil => simp
  | cons f fs ih =>
    by_cases h : f.key = key
    · simp [List.findIdx?_cons, h, List.indexOf_cons]
    · have h' : ¬ key = f.key := fun hh => h hh.symm
      simp [List.findIdx?_cons, h, h', ih, List.indexOf_cons]

/-- C9: the controller's current index is exactly the position of the
open key in the ordered filtered view when present; `hasPrev`/`hasNext`
are precisely `index > 0` and `index < length - 1`; and an absent key
(which subsumes an empty view) yields no selection --- no selected file,
no prev, no next, and prev/next leave the open file unchanged --- rather
than an error. -/
theorem nav_index_correct (key : String) (files : List FileItem) :
    (key ∈ files.map FileItem.key →
       selectedFileIndex (some key) files
         = some ((files.map FileItem.key).indexOf key))
    ∧ (key ∉ files.map FileItem.key →
       selectedFileIndex (some key) files = none
       ∧ selectedFile (some key) files = none
       ∧ hasPrev (some key) files = false
       ∧ hasNext (some key) files = false
       ∧ handlePrev (some key) files = some key
       ∧ handleNext (some key) files = some key)
    ∧ (hasPrev (some key) files = true ↔
        ∃ i, selectedFileIndex (some key) files = some i ∧ 0 < i)
    ∧ (hasNext (some key) files = true ↔
        ∃ i, selectedFileIndex (some key) files = some i ∧ i < files.length - 1)
    ∧ selectedFileIndex none files = none := by
  have hidx := findIdx?_key key files
  refine ⟨?_, ?_, ?_, ?_, rfl⟩
  · intro hm
    rw [selectedFileIndex, hidx, if_pos hm]
  · intro hm
    have hnone : selectedFileIndex (some key) files = none := by
      rw [selectedFileIndex, hidx, if_neg hm]
    refine ⟨hnone, ?_, ?_, ?_, ?_, ?_⟩ <;>
      simp [selectedFile, hasPrev, hasNext, handlePrev, handleNext, hnone]
  · constructor
    · intro h
      match hs : selectedFileIndex (some key) files with
      | none => rw [hasPrev, hs] at h; exact absurd h (by simp)
      | some i =>
        rw [hasPrev, hs] at h
        exact ⟨i, rfl, by simpa using h⟩
    · rintro ⟨i, hi, hpos⟩
      rw [hasPrev, hi]
      simpa using hpos
  · constructor
    · intro h
      match hs : selectedFileIndex (some key) files with
      | none => rw [hasNext, hs] at h; exact absurd h (by simp)
      | some i =>
        rw [hasNext, hs] at h
        exact ⟨i, rfl, by simpa using h⟩
    · rintro ⟨i, hi, hlt⟩
      rw [hasNext, hi]
      simpa using hlt

/-- Witness for C9 on a two-file view with the second file open. -/
theorem nav_index_correct_witness :
    selectedFileIndex (some "b") [⟨"a", 1, "u"⟩, ⟨"b", 2, "u"⟩]
      = some ((([⟨"a", 1, "u"⟩, ⟨"b", 2, "u"⟩] : List FileItem).map FileItem.key).indexOf "b") :=
  (nav_index_correct "b" [⟨"a", 1, "u"⟩, ⟨"b", 2, "u"⟩]).1 (by decide)

/-! ### The prefetch/open race (src/lib/pdf-utils.ts)

The scheduling model is single-threaded and cooperative: concurrent
calls interleave only at await points, and the code between two awaits
runs atomically.  The machine below fixes one document key and tracks
the shared state that both `prefetchPdf` and `loadPdf` touch for that
key; program points between which only task-local work happens are
merged into one step, which does not change any observable interleaving
of the shared state.  In particular the guard of `prefetchPdf` and its
`prefetchingSet.add` are one atomic step (no await separates them,
src/lib/pdf-utils.ts lines 13-17), while the guard of `loadPdf` (lines
68-71) reads only the cache. -/

/-- Shared state for one document key: its cache entry, its membership
in the in-flight set, and how many `getDocument` fetch/rasterization
sequences have been started for it. -/
structure RaceState where
  cache : Option (List String)
  inflight : Bool
  fetches : Nat
deriving DecidableEq

/-- Program points of one call, at await granularity. -/
inductive TaskPC
  | start
  | fetch
  | finish
  | done
deriving DecidableEq

/-- One in-flight call: a direct open (`loadPdf`) or a prefetch. -/
structure RaceTask where
  isLoad : Bool
  pc : TaskPC
deriving DecidableEq

/-- One atomic step of one call.  `start`: the synchronous prologue
(cache check for `loadPdf`; cache-or-in-flight check plus in-flight
marking for `prefetchPdf`).  `fetch`: `getDocument` starts the
underlying fetch/rasterization sequence.  `finish`: the pages resolve,
the non-empty result is cached, and a prefetch clears its marker. -/
def taskStep (numPages : Nat) (pageImage : Nat → String) (t : RaceTask) (s : RaceState) :
    RaceTask × RaceState :=
  match t.pc with
  | .start =>
    if t.isLoad then
      match s.cache with
      | some pages =>
        if pages.length > 0 then ({ t with pc := .done }, s)
        else ({ t with pc := .fetch }, s)
      | none => ({ t with pc := .fetch }, s)
    else
      if s.cache.isSome || s.inflight then ({ t with pc := .done }, s)
      else ({ t with pc := .fetch }, { s with inflight := true })
  | .fetch => ({ t with pc := .finish }, { s with fetches := s.fetches + 1 })
  | .finish =>
    let pages := (List.range numPages).map (fun i => pageImage (i + 1))
    let s1 := if pages.length > 0 then { s with cache := some pages } else s
    let s2 := if t.isLoad then s1 else { s1 with inflight := false }
    ({ t with pc := .done }, s2)
  | .done => (t, s)

/-- Run two calls under a schedule: `true` steps the first task, `false`
the second. -/
def runRace (numPages : Nat) (pageImage : Nat → String) :
    List Bool → RaceTask × RaceTask → RaceState → (RaceTask × RaceTask) × RaceState
  | [], ts, s => (ts, s)
  | b :: bs, ts, s =>
    if b then
      let r := taskStep numPages pageImage ts.1 s
      runRace numPages pageImage bs (r.1, ts.2) r.2
    else
      let r := taskStep numPages pageImage ts.2 s
      runRace numPages pageImage bs (ts.1, r.1) r.2

/-- C1 counterexample: on an uncached key, a hover prefetch passes its
guard and marks the key in-flight, then a direct open's guard reads only
the cache and also proceeds; both reach `getDocument`, so the race runs
two underlying fetch/rasterization sequences, not exactly one. -/
theorem race_two_fetches :
    (runRace 1 (fun _ => "img") [false, true, false, true, false, true]
        (⟨true, TaskPC.start⟩, ⟨false, TaskPC.start⟩)
        ⟨none, false, 0⟩).2.fetches = 2
    ∧ (runRace 1 (fun _ => "img") [false, true, false, true, false, true]
        (⟨true, TaskPC.start⟩, ⟨false, TaskPC.start⟩)
        ⟨none, false, 0⟩).1
      = (⟨true, TaskPC.done⟩, ⟨false, TaskPC.done⟩) := by
  constructor <;> rfl

/-- C1 (amended): the in-flight dedup set gates only `prefetchPdf`.  A
prefetch entered while the key is in-flight is a no-op; a `loadPdf`
entered while the cache is empty proceeds to fetch regardless of the
in-flight marker (so a prefetch racing a direct open can run two
underlying sequences, as the counterexample shows); and two racing
prefetches of one key run exactly one underlying sequence, because the
prefetch guard and the in-flight marking are one atomic step. -/
theorem inflight_gates_only_prefetch (numPages : Nat) (pageImage : Nat → String)
    (s : RaceState) :
    (s.inflight = true →
       taskStep numPages pageImage ⟨false, TaskPC.start⟩ s = (⟨false, TaskPC.done⟩, s))
    ∧ (s.cache = none →
       taskStep numPages pageImage ⟨true, TaskPC.start⟩ s = (⟨true, TaskPC.fetch⟩, s))
    ∧ (s.cache = none → s.inflight = false → s.fetches = 0 →
       (runRace numPages pageImage [true, false, true, true]
          (⟨false, TaskPC.start⟩, ⟨false, TaskPC.start⟩) s).2.fetches = 1) := by
  refine ⟨?_, ?_, ?_⟩
  · intro h
    simp [taskStep, h]
  · intro h
    simp [taskStep, h]
  · intro h1 h2 h3
    by_cases hp : ((List.range numPages).map fun i => pageImage (i + 1)).length > 0 <;>
      simp [runRace, taskStep, h1, h2, h3, hp, apply_ite RaceState.fetches]

/-- Witness for C1's amended claim: a prefetch on an in-flight key is a
no-op, and a two-prefetch race runs exactly one fetch sequence. -/
theorem inflight_gates_only_prefetch_witness :
    taskStep 1 (fun _ => "p") ⟨false, TaskPC.start⟩ ⟨none, true, 0⟩
      = (⟨false, TaskPC.done⟩, ⟨none, true, 0⟩)
    ∧ (runRace 1 (fun _ => "p") [true, false, true, true]
        (⟨false, TaskPC.start⟩, ⟨false, TaskPC.start⟩) ⟨none, false, 0⟩).2.fetches = 1 :=
  ⟨(inflight_gates_only_prefetch 1 (fun _ => "p") ⟨none, true, 0⟩).1 rfl,
   (inflight_gates_only_prefetch 1 (fun _ => "p") ⟨none, false, 0⟩).2.2 rfl rfl rfl⟩

end EFB
